import Mathlib

/-!
Verification of the STM32F4 flash abstraction layer for LittleFS
(`STM32F4FlashAbstractionLayer.cpp` and the block-device glue in `main.cpp`).

The C++ code is shallowly embedded: flash memory is a byte map `Nat → Nat`,
the three diagnostics counters live in a `FlashState` record, 32-bit machine
arithmetic is made explicit through `toUInt32` / `toInt32`, and the hardware
program/erase primitives are modelled with NOR semantics (programming can only
clear bits) together with Boolean oracles standing for the HAL status returns.
-/

/-- 2^32, the modulus of the 32-bit machine integers used throughout the C code. -/
def UINT32_MOD : Nat := 4294967296

/-- Conversion of a C `long`/`int` value to `uint32_t` (reduction mod 2^32). -/
def toUInt32 (x : Int) : Nat := (x % (UINT32_MOD : Int)).toNat

/-- Conversion of a C unsigned 32-bit value to `int`/`long`
(two's-complement reinterpretation, as gcc-arm performs it). -/
def toInt32 (n : Nat) : Int :=
  if n % UINT32_MOD < 2147483648 then ((n % UINT32_MOD : Nat) : Int)
  else ((n % UINT32_MOD : Nat) : Int) - (UINT32_MOD : Int)

/-- `LITTLE_FS_STARTIN_ADDRESS` (0x08040000, base of sector 6): start of the
region reserved for LittleFS. -/
def LITTLE_FS_STARTIN_ADDRESS : Nat := 0x08040000

/-- `FLASH_TOTAL_SIZE_BYTES` (256 KiB): size of the LittleFS region. -/
def FLASH_TOTAL_SIZE_BYTES : Nat := 262144

/-- `cfg.block_size` from the `lfs_config` record in `main.cpp`. -/
def LFS_BLOCK_SIZE : Nat := 4096

/-- `ADDR_FLASH_SECTOR_0` (base of sector 0, 16 KiB). -/
def ADDR_FLASH_SECTOR_0 : Nat := 0x08000000

/-- `ADDR_FLASH_SECTOR_1` (base of sector 1, 16 KiB). -/
def ADDR_FLASH_SECTOR_1 : Nat := 0x08004000

/-- `ADDR_FLASH_SECTOR_2` (base of sector 2, 16 KiB). -/
def ADDR_FLASH_SECTOR_2 : Nat := 0x08008000

/-- `ADDR_FLASH_SECTOR_3` (base of sector 3, 16 KiB). -/
def ADDR_FLASH_SECTOR_3 : Nat := 0x0800C000

/-- `ADDR_FLASH_SECTOR_4` (base of sector 4, 64 KiB). -/
def ADDR_FLASH_SECTOR_4 : Nat := 0x08010000

/-- `ADDR_FLASH_SECTOR_5` (base of sector 5, 128 KiB). -/
def ADDR_FLASH_SECTOR_5 : Nat := 0x08020000

/-- `ADDR_FLASH_SECTOR_6` (base of sector 6, 128 KiB). -/
def ADDR_FLASH_SECTOR_6 : Nat := 0x08040000

/-- `ADDR_FLASH_SECTOR_7` (base of sector 7, 128 KiB). -/
def ADDR_FLASH_SECTOR_7 : Nat := 0x08060000

/-- `ADDR_FLASH_SECTOR_8` (end of sector 7, used only by `stm32_get_sector`). -/
def ADDR_FLASH_SECTOR_8 : Nat := 0x08080000

/-- `STM32F4FlashAbstractionLayer::getSectorFromOffset`: maps an absolute
address to the STM32F401RE flash sector containing it; every address outside
sectors 0..6 falls through to the trailing `else` and yields sector 7.
(`FLASH_SECTOR_n` is the numeral `n` in the vendor HAL.) -/
def STM32F4FlashAbstractionLayer.getSectorFromOffset (addr : Nat) : Nat :=
  if addr < ADDR_FLASH_SECTOR_1 ∧ addr ≥ ADDR_FLASH_SECTOR_0 then 0
  else if addr < ADDR_FLASH_SECTOR_2 ∧ addr ≥ ADDR_FLASH_SECTOR_1 then 1
  else if addr < ADDR_FLASH_SECTOR_3 ∧ addr ≥ ADDR_FLASH_SECTOR_2 then 2
  else if addr < ADDR_FLASH_SECTOR_4 ∧ addr ≥ ADDR_FLASH_SECTOR_3 then 3
  else if addr < ADDR_FLASH_SECTOR_5 ∧ addr ≥ ADDR_FLASH_SECTOR_4 then 4
  else if addr < ADDR_FLASH_SECTOR_6 ∧ addr ≥ ADDR_FLASH_SECTOR_5 then 5
  else if addr < ADDR_FLASH_SECTOR_7 ∧ addr ≥ ADDR_FLASH_SECTOR_6 then 6
  else 7

/-- `stm32_get_sector` from `main.cpp`: same comparison chain, but on the
STM32F401RE (no `FLASH_SECTOR_8` and following) the chain has no trailing
`else`, so `sector` keeps its initial value `0` for any address outside
sectors 0..7. -/
def MainCpp.stm32_get_sector (addr : Nat) : Nat :=
  if addr < ADDR_FLASH_SECTOR_1 ∧ addr ≥ ADDR_FLASH_SECTOR_0 then 0
  else if addr < ADDR_FLASH_SECTOR_2 ∧ addr ≥ ADDR_FLASH_SECTOR_1 then 1
  else if addr < ADDR_FLASH_SECTOR_3 ∧ addr ≥ ADDR_FLASH_SECTOR_2 then 2
  else if addr < ADDR_FLASH_SECTOR_4 ∧ addr ≥ ADDR_FLASH_SECTOR_3 then 3
  else if addr < ADDR_FLASH_SECTOR_5 ∧ addr ≥ ADDR_FLASH_SECTOR_4 then 4
  else if addr < ADDR_FLASH_SECTOR_6 ∧ addr ≥ ADDR_FLASH_SECTOR_5 then 5
  else if addr < ADDR_FLASH_SECTOR_7 ∧ addr ≥ ADDR_FLASH_SECTOR_6 then 6
  else if addr < ADDR_FLASH_SECTOR_8 ∧ addr ≥ ADDR_FLASH_SECTOR_7 then 7
  else 0

/-- The mutable process state of the driver: the memory-mapped flash bytes and
the three diagnostics counters `ef_err_port_cnt`, `on_ic_write_cnt`,
`on_ic_read_cnt`. -/
structure FlashState where
  mem : Nat → Nat
  ef_err_port_cnt : Nat
  on_ic_write_cnt : Nat
  on_ic_read_cnt : Nat

/-- `HAL_FLASH_Program(FLASH_TYPEPROGRAM_BYTE, a, d)` on NOR flash: the byte at
address `a` becomes the bitwise AND of its previous value with `d`
(programming can only clear bits, never set them). -/
def progByte (mem : Nat → Nat) (a d : Nat) : Nat → Nat :=
  fun x => if x = a then mem a &&& d else mem x

/-- The program/verify loop of `STM32F4FlashAbstractionLayer::write` (and of
the identical static `write` in `main.cpp`).  `halOk k` is the status
`HAL_FLASH_Program` reports for the `k`-th byte; on a reported failure the
loop stops with the memory as it was, on a verify mismatch it stops after the
failed programming attempt.  The fuel argument is the number of remaining loop
iterations, `i` the current loop index. -/
def writeLoop (buf : Nat → Nat) (halOk : Nat → Bool) (addr : Int)
    (mem : Nat → Nat) (i : Nat) : Nat → ((Nat → Nat) × Bool)
  | 0 => (mem, true)
  | n + 1 =>
    if halOk i then
      let a := toUInt32 (addr + (i : Int))
      let mem1 := progByte mem a (buf i)
      if mem1 a = buf i then writeLoop buf halOk addr mem1 (i + 1) n
      else (mem1, false)
    else (mem, false)

/-- The scan loop of `verify_flash_erased`: checks the bytes at
`(addr + i) ... (addr + i + n - 1)` (in `uint32_t` arithmetic) against `0xFF`,
stopping at the first mismatch. -/
def verifyLoop (mem : Nat → Nat) (addr : Nat) (i : Nat) : Nat → Bool
  | 0 => true
  | n + 1 =>
    if mem ((addr + i) % UINT32_MOD) = 0xFF then verifyLoop mem addr (i + 1) n
    else false

/-- The copy loop of the `read` functions: the `size` flash bytes starting at
address `addr`, as the list delivered into the caller's buffer. -/
def readBytes (mem : Nat → Nat) (addr : Int) (size : Nat) : List Nat :=
  (List.range size).map (fun i : Nat => mem (toUInt32 (addr + (i : Int))))

/-- Base address of STM32F401RE flash sector `s` (with `sectorBase 8` the end
of the flash, so that `sectorBase (s+1)` is the end of sector `s`). -/
def sectorBase : Nat → Nat
  | 0 => 0x08000000
  | 1 => 0x08004000
  | 2 => 0x08008000
  | 3 => 0x0800C000
  | 4 => 0x08010000
  | 5 => 0x08020000
  | 6 => 0x08040000
  | 7 => 0x08060000
  | _ => 0x08080000

/-- End (one past the last byte) of flash sector `s`. -/
def sectorEnd (s : Nat) : Nat := sectorBase (s + 1)

/-- Effect of `HAL_FLASHEx_Erase` over `nb` sectors starting at sector
`first`: every byte of those sectors becomes the erased value `0xFF`. -/
def eraseSectors (mem : Nat → Nat) (first nb : Nat) : Nat → Nat :=
  fun a =>
    if sectorBase first ≤ a ∧ a < sectorEnd (first + nb - 1) then 0xFF else mem a

/-- `STM32F4FlashAbstractionLayer::erase`.  Besides the `int` result and the
new state it returns the list of hardware erase transactions issued, each a
`(Sector, NbSectors)` pair handed to `HAL_FLASHEx_Erase`; `eraseOk` is the
status that call reports.  The validity test and the sector arithmetic follow
the C source, with the `uint32_t` conversions made explicit. -/
def STM32F4FlashAbstractionLayer.erase (s : FlashState) (offset : Int)
    (size : Nat) (eraseOk : Bool) : Int × List (Nat × Nat) × FlashState :=
  let addr : Int := (LITTLE_FS_STARTIN_ADDRESS : Int) + offset
  if offset < 0 ∨ toUInt32 offset ≥ FLASH_TOTAL_SIZE_BYTES ∨ size = 0 ∨
      toUInt32 (offset + (size : Int)) > FLASH_TOTAL_SIZE_BYTES then
    (-1, [], { s with ef_err_port_cnt := s.ef_err_port_cnt + 1 })
  else
    let FirstSector := getSectorFromOffset (toUInt32 addr)
    let NbOfSectors :=
      (getSectorFromOffset (toUInt32 (addr + (size : Int) - 1)) + UINT32_MOD -
        FirstSector + 1) % UINT32_MOD
    if eraseOk then
      (toInt32 size, [(FirstSector, NbOfSectors)],
        { s with mem := eraseSectors s.mem FirstSector NbOfSectors })
    else
      (-1, [(FirstSector, NbOfSectors)],
        { s with ef_err_port_cnt := s.ef_err_port_cnt + 1 })

/-- `STM32F4FlashAbstractionLayer::write`: validity test, then the byte-wise
program/verify loop; success bumps `on_ic_write_cnt`, every failure bumps
`ef_err_port_cnt`. -/
def STM32F4FlashAbstractionLayer.write (s : FlashState) (offset : Int)
    (buf : Nat → Nat) (size : Nat) (halOk : Nat → Bool) : Int × FlashState :=
  let addr : Int := (LITTLE_FS_STARTIN_ADDRESS : Int) + offset
  if offset < 0 ∨ toUInt32 offset ≥ FLASH_TOTAL_SIZE_BYTES ∨ size = 0 ∨
      toUInt32 (offset + (size : Int)) > FLASH_TOTAL_SIZE_BYTES then
    (-1, { s with ef_err_port_cnt := s.ef_err_port_cnt + 1 })
  else
    match writeLoop buf halOk addr s.mem 0 size with
    | (mem1, true) =>
      (toInt32 size, { s with mem := mem1, on_ic_write_cnt := s.on_ic_write_cnt + 1 })
    | (mem1, false) =>
      (-1, { s with mem := mem1, ef_err_port_cnt := s.ef_err_port_cnt + 1 })

/-- `STM32F4FlashAbstractionLayer::read`: null-buffer/zero-size test, range
test, then a direct memory copy returned as the byte list; success bumps
`on_ic_read_cnt`.  `bufValid` models the C null-pointer check `!buf`. -/
def STM32F4FlashAbstractionLayer.read (s : FlashState) (offset : Int)
    (bufValid : Bool) (size : Nat) : Int × List Nat × FlashState :=
  let addr : Int := (LITTLE_FS_STARTIN_ADDRESS : Int) + offset
  if bufValid = false ∨ size = 0 then
    (-1, [], { s with ef_err_port_cnt := s.ef_err_port_cnt + 1 })
  else if offset < 0 ∨ toUInt32 offset ≥ FLASH_TOTAL_SIZE_BYTES ∨
      toUInt32 (offset + (size : Int)) > FLASH_TOTAL_SIZE_BYTES then
    (-1, [], { s with ef_err_port_cnt := s.ef_err_port_cnt + 1 })
  else
    (toInt32 size, readBytes s.mem addr size,
      { s with on_ic_read_cnt := s.on_ic_read_cnt + 1 })

/-- `STM32F4FlashAbstractionLayer::sync`: no buffering, returns 0. -/
def STM32F4FlashAbstractionLayer.sync (s : FlashState) : Int × FlashState :=
  (0, s)

/-- `STM32F4FlashAbstractionLayer::verify_flash_erased`: scans `size` bytes
from `addr`; the first byte different from `0xFF` makes it return `false` and
bump `ef_err_port_cnt`. -/
def STM32F4FlashAbstractionLayer.verify_flash_erased (s : FlashState)
    (addr : Nat) (size : Nat) : Bool × FlashState :=
  if verifyLoop s.mem addr 0 size then (true, s)
  else (false, { s with ef_err_port_cnt := s.ef_err_port_cnt + 1 })

/-- The static `read` in `main.cpp`: same copy loop as the class method but
with no validation whatsoever. -/
def MainCpp.read (s : FlashState) (offset : Int) (size : Nat) :
    Int × List Nat × FlashState :=
  let addr : Int := (LITTLE_FS_STARTIN_ADDRESS : Int) + offset
  (toInt32 size, readBytes s.mem addr size,
    { s with on_ic_read_cnt := s.on_ic_read_cnt + 1 })

/-- The static `write` in `main.cpp`: the same program/verify loop as the
class method, with no validation. -/
def MainCpp.write (s : FlashState) (offset : Int) (buf : Nat → Nat)
    (size : Nat) (halOk : Nat → Bool) : Int × FlashState :=
  let addr : Int := (LITTLE_FS_STARTIN_ADDRESS : Int) + offset
  match writeLoop buf halOk addr s.mem 0 size with
  | (mem1, true) =>
    (toInt32 size, { s with mem := mem1, on_ic_write_cnt := s.on_ic_write_cnt + 1 })
  | (mem1, false) =>
    (-1, { s with mem := mem1, ef_err_port_cnt := s.ef_err_port_cnt + 1 })

/-- The static `erase` in `main.cpp`: the same sector computation and single
`HAL_FLASHEx_Erase` call as the class method, but using `stm32_get_sector`
and with no validation. -/
def MainCpp.erase (s : FlashState) (offset : Int) (size : Nat)
    (eraseOk : Bool) : Int × List (Nat × Nat) × FlashState :=
  let addr : Int := (LITTLE_FS_STARTIN_ADDRESS : Int) + offset
  let FirstSector := stm32_get_sector (toUInt32 addr)
  let NbOfSectors :=
    (stm32_get_sector (toUInt32 (addr + (size : Int) - 1)) + UINT32_MOD -
      FirstSector + 1) % UINT32_MOD
  if eraseOk then
    (toInt32 size, [(FirstSector, NbOfSectors)],
      { s with mem := eraseSectors s.mem FirstSector NbOfSectors })
  else
    (-1, [(FirstSector, NbOfSectors)],
      { s with ef_err_port_cnt := s.ef_err_port_cnt + 1 })

/-- `verify_flash_erased` in `main.cpp`: same scan, but it returns `false`
without touching any counter. -/
def MainCpp.verify_flash_erased (s : FlashState) (addr : Nat) (size : Nat) :
    Bool × FlashState :=
  (verifyLoop s.mem addr 0 size, s)

/-- The LittleFS `read` block-device adapter in `main.cpp`: computes
`offset = block * block_size + off` (in `uint32_t` arithmetic, then converted
to `long`), delegates to the static `read`, and collapses the result with
`(result == size) ? 0 : -1`, the comparison being performed at type
`lfs_size_t` (`uint32_t`). -/
def LfsAdapter.read (s : FlashState) (block off : Nat) (size : Nat) :
    Int × List Nat × FlashState :=
  let offset : Int := toInt32 ((block * LFS_BLOCK_SIZE + off) % UINT32_MOD)
  let r := MainCpp.read s offset size
  (if toUInt32 r.1 = size % UINT32_MOD then 0 else -1, r.2.1, r.2.2)

/-- The LittleFS `write` (prog) adapter in `main.cpp`. -/
def LfsAdapter.write (s : FlashState) (block off : Nat) (buf : Nat → Nat)
    (size : Nat) (halOk : Nat → Bool) : Int × FlashState :=
  let offset : Int := toInt32 ((block * LFS_BLOCK_SIZE + off) % UINT32_MOD)
  let r := MainCpp.write s offset buf size halOk
  (if toUInt32 r.1 = size % UINT32_MOD then 0 else -1, r.2)

/-- The LittleFS `erase` adapter in `main.cpp`: erases one logical block of
`c->block_size` bytes at `offset = block * block_size`. -/
def LfsAdapter.erase (s : FlashState) (block : Nat) (eraseOk : Bool) :
    Int × List (Nat × Nat) × FlashState :=
  let offset : Int := toInt32 ((block * LFS_BLOCK_SIZE) % UINT32_MOD)
  let r := MainCpp.erase s offset LFS_BLOCK_SIZE eraseOk
  (if toUInt32 r.1 = LFS_BLOCK_SIZE then 0 else -1, r.2.1, r.2.2)

/-- The LittleFS `sync` adapter in `main.cpp`: always returns 0 and does
nothing. -/
def LfsAdapter.sync (s : FlashState) : Int × FlashState :=
  (0, s)

/-- Inside the LittleFS region the resolver returns sector 6 below
`ADDR_FLASH_SECTOR_7` and sector 7 above it. -/
theorem getSectorFromOffset_in_region (a : Nat)
    (h1 : ADDR_FLASH_SECTOR_6 ≤ a) (h2 : a < ADDR_FLASH_SECTOR_8) :
    STM32F4FlashAbstractionLayer.getSectorFromOffset a =
      if a < ADDR_FLASH_SECTOR_7 then 6 else 7 := by
  simp only [STM32F4FlashAbstractionLayer.getSectorFromOffset,
    ADDR_FLASH_SECTOR_0, ADDR_FLASH_SECTOR_1, ADDR_FLASH_SECTOR_2,
    ADDR_FLASH_SECTOR_3, ADDR_FLASH_SECTOR_4, ADDR_FLASH_SECTOR_5,
    ADDR_FLASH_SECTOR_6, ADDR_FLASH_SECTOR_7, ADDR_FLASH_SECTOR_8] at *
  split_ifs <;> omega

/-- C4 counterexample: for the geometry `[16K,16K,16K,16K,64K,128K,128K,128K]`
(relative address 192K, i.e. absolute address `0x08000000 + 192*1024`) the
resolver returns sector 5, not sector 6 as the claim states. -/
theorem c4_counterexample :
    ¬ STM32F4FlashAbstractionLayer.getSectorFromOffset (134217728 + 196608) = 6 := by
  decide

/-- C4 (amended): over the geometry `[16K,16K,16K,16K,64K,128K,128K,128K]`
with addresses taken relative to the flash base `0x08000000`, the resolver
returns unit 4 for every address in `[64K, 128K)`, unit 5 for address `192K`,
and unit 5 for address `256K - 1` (both of the latter lie inside unit 5,
whose range is `[128K, 256K)`). -/
theorem c4_geometry_resolver :
    (∀ a : Nat, 65536 ≤ a → a < 131072 →
      STM32F4FlashAbstractionLayer.getSectorFromOffset (134217728 + a) = 4) ∧
    STM32F4FlashAbstractionLayer.getSectorFromOffset (134217728 + 196608) = 5 ∧
    STM32F4FlashAbstractionLayer.getSectorFromOffset (134217728 + 262143) = 5 := by
  refine ⟨fun a h1 h2 => ?_, by decide, by decide⟩
  simp only [STM32F4FlashAbstractionLayer.getSectorFromOffset,
    ADDR_FLASH_SECTOR_0, ADDR_FLASH_SECTOR_1, ADDR_FLASH_SECTOR_2,
    ADDR_FLASH_SECTOR_3, ADDR_FLASH_SECTOR_4, ADDR_FLASH_SECTOR_5,
    ADDR_FLASH_SECTOR_6, ADDR_FLASH_SECTOR_7]
  split_ifs <;> omega

/-- C4 amended-claim witness at the concrete address 64K. -/
theorem c4_geometry_resolver_witness :
    STM32F4FlashAbstractionLayer.getSectorFromOffset (134217728 + 65536) = 4 :=
  c4_geometry_resolver.1 65536 (by decide) (by decide)

/-- C10: `getSectorFromOffset` is total, and every 32-bit address outside the
half-open ranges of sectors 0 through 6 — below the flash base `0x08000000`
or at or beyond the base of sector 7 (`0x08060000`), with no upper capacity
bound — reaches the trailing `else` and returns `FLASH_SECTOR_7` (= 7). -/
theorem c10_getSectorFromOffset_total (addr : Nat) (hw : addr < UINT32_MOD)
    (h : ¬ (ADDR_FLASH_SECTOR_0 ≤ addr ∧ addr < ADDR_FLASH_SECTOR_7)) :
    STM32F4FlashAbstractionLayer.getSectorFromOffset addr = 7 := by
  simp only [STM32F4FlashAbstractionLayer.getSectorFromOffset,
    ADDR_FLASH_SECTOR_0, ADDR_FLASH_SECTOR_1, ADDR_FLASH_SECTOR_2,
    ADDR_FLASH_SECTOR_3, ADDR_FLASH_SECTOR_4, ADDR_FLASH_SECTOR_5,
    ADDR_FLASH_SECTOR_6, ADDR_FLASH_SECTOR_7] at *
  split_ifs <;> omega

/-- C10 witness: address 0 (below the flash base) resolves to sector 7. -/
theorem c10_getSectorFromOffset_total_witness :
    STM32F4FlashAbstractionLayer.getSectorFromOffset 0 = 7 :=
  c10_getSectorFromOffset_total 0 (by decide) (by decide)

/-- `toUInt32` on a nonnegative 32-bit value is `Int.toNat`. -/
theorem toUInt32_eq_toNat {x : Int} (h1 : 0 ≤ x) (h2 : x < 4294967296) :
    toUInt32 x = x.toNat := by
  unfold toUInt32 UINT32_MOD
  omega

/-- `toInt32` is the identity below `2^31`. -/
theorem toInt32_eq_self {n : Nat} (h : n < 2147483648) : toInt32 n = (n : Int) := by
  unfold toInt32 UINT32_MOD
  rw [Nat.mod_eq_of_lt (by omega)]
  rw [if_pos (by omega)]

/-- The verify scan returns `true` exactly when all scanned bytes (addressed
in `uint32_t` arithmetic) hold `0xFF`. -/
theorem verifyLoop_eq_true_iff (mem : Nat → Nat) (addr : Nat) :
    ∀ n i, verifyLoop mem addr i n = true ↔
      ∀ j, j < n → mem ((addr + i + j) % UINT32_MOD) = 0xFF := by
  intro n
  induction n with
  | zero => intro i; simp [verifyLoop]
  | succ n ih =>
    intro i
    simp only [verifyLoop]
    by_cases h : mem ((addr + i) % UINT32_MOD) = 0xFF
    · rw [if_pos h, ih (i + 1)]
      constructor
      · intro hall j hj
        rcases Nat.eq_zero_or_pos j with rfl | hpos
        · simpa using h
        · have := hall (j - 1) (by omega)
          have hq : addr + (i + 1) + (j - 1) = addr + i + j := by omega
          rwa [hq] at this
      · intro hall j hj
        have := hall (j + 1) (by omega)
        have hq : addr + i + (j + 1) = addr + (i + 1) + j := by omega
        rwa [hq] at this
    · rw [if_neg h]
      simp only [Bool.false_eq_true, false_iff]
      intro hall
      exact h (by simpa using hall 0 (by omega))

/-- `eraseSectors` over the inclusive sector range `[first, last]` written as
a count: inside the range everything is `0xFF`, outside nothing changes. -/
theorem eraseSectors_spec (mem : Nat → Nat) (first last : Nat)
    (h : first ≤ last) (a : Nat) :
    eraseSectors mem first (last - first + 1) a =
      if sectorBase first ≤ a ∧ a < sectorEnd last then 0xFF else mem a := by
  unfold eraseSectors
  have hq : first + (last - first + 1) - 1 = last := by omega
  rw [hq]

/-- For a valid request the first and last sectors are 6 or 7, ordered, and
their sector run covers the whole requested byte range. -/
theorem region_sector_facts (offset : Int) (size : Nat)
    (h0 : 0 ≤ offset) (h1 : 0 < size)
    (h2 : offset + (size : Int) ≤ (FLASH_TOTAL_SIZE_BYTES : Int)) :
    STM32F4FlashAbstractionLayer.getSectorFromOffset
        (LITTLE_FS_STARTIN_ADDRESS + offset.toNat) ≤
      STM32F4FlashAbstractionLayer.getSectorFromOffset
        (LITTLE_FS_STARTIN_ADDRESS + offset.toNat + size - 1) ∧
    STM32F4FlashAbstractionLayer.getSectorFromOffset
        (LITTLE_FS_STARTIN_ADDRESS + offset.toNat + size - 1) ≤ 7 ∧
    6 ≤ STM32F4FlashAbstractionLayer.getSectorFromOffset
        (LITTLE_FS_STARTIN_ADDRESS + offset.toNat) ∧
    sectorBase (STM32F4FlashAbstractionLayer.getSectorFromOffset
        (LITTLE_FS_STARTIN_ADDRESS + offset.toNat)) ≤
      LITTLE_FS_STARTIN_ADDRESS + offset.toNat ∧
    LITTLE_FS_STARTIN_ADDRESS + offset.toNat + size ≤
      sectorEnd (STM32F4FlashAbstractionLayer.getSectorFromOffset
        (LITTLE_FS_STARTIN_ADDRESS + offset.toNat + size - 1)) := by
  unfold FLASH_TOTAL_SIZE_BYTES at h2
  have hx : offset.toNat < 262144 := by omega
  have hy : offset.toNat + size ≤ 262144 := by omega
  rw [getSectorFromOffset_in_region (LITTLE_FS_STARTIN_ADDRESS + offset.toNat)
      (by unfold LITTLE_FS_STARTIN_ADDRESS ADDR_FLASH_SECTOR_6; omega)
      (by unfold LITTLE_FS_STARTIN_ADDRESS ADDR_FLASH_SECTOR_8; omega),
    getSectorFromOffset_in_region (LITTLE_FS_STARTIN_ADDRESS + offset.toNat + size - 1)
      (by unfold LITTLE_FS_STARTIN_ADDRESS ADDR_FLASH_SECTOR_6; omega)
      (by unfold LITTLE_FS_STARTIN_ADDRESS ADDR_FLASH_SECTOR_8; omega)]
  unfold LITTLE_FS_STARTIN_ADDRESS ADDR_FLASH_SECTOR_7 at *
  split_ifs <;> simp only [sectorBase, sectorEnd] <;> omega

/-- Closed form of a valid `erase` call: the validation passes, one
transaction `(FirstSector, NbOfSectors)` is issued, and on success the run of
sectors it names is erased and `size` is returned. -/
theorem erase_valid (s : FlashState) (offset : Int) (size : Nat)
    (eraseOk : Bool) (first last : Nat)
    (h0 : 0 ≤ offset) (h1 : 0 < size)
    (h2 : offset + (size : Int) ≤ (FLASH_TOTAL_SIZE_BYTES : Int))
    (hf : first = STM32F4FlashAbstractionLayer.getSectorFromOffset
      (LITTLE_FS_STARTIN_ADDRESS + offset.toNat))
    (hl : last = STM32F4FlashAbstractionLayer.getSectorFromOffset
      (LITTLE_FS_STARTIN_ADDRESS + offset.toNat + size - 1)) :
    STM32F4FlashAbstractionLayer.erase s offset size eraseOk =
      if eraseOk then
        ((size : Int), [(first, last - first + 1)],
          { s with mem := eraseSectors s.mem first (last - first + 1) })
      else
        (-1, [(first, last - first + 1)],
          { s with ef_err_port_cnt := s.ef_err_port_cnt + 1 }) := by
  have hfacts := region_sector_facts offset size h0 h1 h2
  unfold FLASH_TOTAL_SIZE_BYTES at h2
  have e1 : toUInt32 offset = offset.toNat :=
    toUInt32_eq_toNat h0 (by omega)
  have e2 : toUInt32 (offset + (size : Int)) = offset.toNat + size := by
    rw [toUInt32_eq_toNat (by omega) (by omega)]; omega
  have e3 : toUInt32 ((LITTLE_FS_STARTIN_ADDRESS : Int) + offset) =
      LITTLE_FS_STARTIN_ADDRESS + offset.toNat := by
    unfold LITTLE_FS_STARTIN_ADDRESS
    rw [toUInt32_eq_toNat (by omega) (by omega)]
    omega
  have e4 : toUInt32 ((LITTLE_FS_STARTIN_ADDRESS : Int) + offset + (size : Int) - 1) =
      LITTLE_FS_STARTIN_ADDRESS + offset.toNat + size - 1 := by
    unfold LITTLE_FS_STARTIN_ADDRESS
    rw [toUInt32_eq_toNat (by omega) (by omega)]
    omega
  have hval : ¬ (offset < 0 ∨ toUInt32 offset ≥ FLASH_TOTAL_SIZE_BYTES ∨ size = 0 ∨
      toUInt32 (offset + (size : Int)) > FLASH_TOTAL_SIZE_BYTES) := by
    rw [e1, e2]
    unfold FLASH_TOTAL_SIZE_BYTES
    omega
  have hmod : (STM32F4FlashAbstractionLayer.getSectorFromOffset
        (LITTLE_FS_STARTIN_ADDRESS + offset.toNat + size - 1) + UINT32_MOD -
      STM32F4FlashAbstractionLayer.getSectorFromOffset
        (LITTLE_FS_STARTIN_ADDRESS + offset.toNat) + 1) % UINT32_MOD =
      last - first + 1 := by
    rw [← hf, ← hl]
    unfold UINT32_MOD
    omega
  have hsz : toInt32 size = (size : Int) := toInt32_eq_self (by omega)
  simp only [STM32F4FlashAbstractionLayer.erase]
  rw [if_neg hval, e3, e4, hmod, hsz, ← hf]

/-- C5: for every valid `(offset, size)`, `erase` computes the absolute
address `region.start + offset`, resolves the first and last units through
`getSectorFromOffset` at that address and at `address + size - 1`, issues
exactly one hardware erase transaction spanning the inclusive sector range
`[first, last]` — erasing every byte of that span and no byte outside it —
and on success returns the requested byte count `size`. -/
theorem c5_erase_algorithm (s : FlashState) (offset : Int) (size : Nat)
    (eraseOk : Bool) (h0 : 0 ≤ offset) (h1 : 0 < size)
    (h2 : offset + (size : Int) ≤ (FLASH_TOTAL_SIZE_BYTES : Int)) :
    (STM32F4FlashAbstractionLayer.erase s offset size eraseOk).2.1 =
      [(STM32F4FlashAbstractionLayer.getSectorFromOffset
          (LITTLE_FS_STARTIN_ADDRESS + offset.toNat),
        STM32F4FlashAbstractionLayer.getSectorFromOffset
            (LITTLE_FS_STARTIN_ADDRESS + offset.toNat + size - 1) -
          STM32F4FlashAbstractionLayer.getSectorFromOffset
            (LITTLE_FS_STARTIN_ADDRESS + offset.toNat) + 1)] ∧
    (eraseOk = true →
      (STM32F4FlashAbstractionLayer.erase s offset size eraseOk).1 = (size : Int) ∧
      (∀ a, sectorBase (STM32F4FlashAbstractionLayer.getSectorFromOffset
          (LITTLE_FS_STARTIN_ADDRESS + offset.toNat)) ≤ a →
        a < sectorEnd (STM32F4FlashAbstractionLayer.getSectorFromOffset
          (LITTLE_FS_STARTIN_ADDRESS + offset.toNat + size - 1)) →
        (STM32F4FlashAbstractionLayer.erase s offset size eraseOk).2.2.mem a = 0xFF) ∧
      (∀ a, (a < sectorBase (STM32F4FlashAbstractionLayer.getSectorFromOffset
            (LITTLE_FS_STARTIN_ADDRESS + offset.toNat)) ∨
          sectorEnd (STM32F4FlashAbstractionLayer.getSectorFromOffset
            (LITTLE_FS_STARTIN_ADDRESS + offset.toNat + size - 1)) ≤ a) →
        (STM32F4FlashAbstractionLayer.erase s offset size eraseOk).2.2.mem a = s.mem a)) := by
  have hfacts := region_sector_facts offset size h0 h1 h2
  rw [erase_valid s offset size eraseOk _ _ h0 h1 h2 rfl rfl]
  cases eraseOk with
  | false => exact ⟨rfl, by simp⟩
  | true =>
    refine ⟨rfl, fun _ => ⟨rfl, fun a ha1 ha2 => ?_, fun a ha => ?_⟩⟩
    · show eraseSectors s.mem _ _ a = 0xFF
      rw [eraseSectors_spec s.mem _ _ hfacts.1 a, if_pos ⟨ha1, ha2⟩]
    · show eraseSectors s.mem _ _ a = s.mem a
      rw [eraseSectors_spec s.mem _ _ hfacts.1 a, if_neg (by omega)]

/-- C5 witness: erasing one byte at offset 0 issues the single transaction
`(6, 1)` and returns 1. -/
theorem c5_erase_algorithm_witness :
    (STM32F4FlashAbstractionLayer.erase ⟨fun _ => 0, 0, 0, 0⟩ 0 1 true).2.1 = [(6, 1)] ∧
    (STM32F4FlashAbstractionLayer.erase ⟨fun _ => 0, 0, 0, 0⟩ 0 1 true).1 = 1 := by
  have h := c5_erase_algorithm ⟨fun _ => 0, 0, 0, 0⟩ 0 1 true (by decide)
    (by decide) (by norm_num [FLASH_TOTAL_SIZE_BYTES])
  refine ⟨?_, ?_⟩
  · rw [h.1]; decide
  · rw [(h.2 rfl).1]; norm_num

/-- C2: a successful `erase(offset, size)` followed by `verify_flash_erased`
over the same byte range `(region.start + offset, size)` returns `true`. -/
theorem c2_erase_then_verify (s : FlashState) (offset : Int) (size : Nat)
    (h0 : 0 ≤ offset) (h1 : 0 < size)
    (h2 : offset + (size : Int) ≤ (FLASH_TOTAL_SIZE_BYTES : Int)) :
    (STM32F4FlashAbstractionLayer.verify_flash_erased
      (STM32F4FlashAbstractionLayer.erase s offset size true).2.2
      (LITTLE_FS_STARTIN_ADDRESS + offset.toNat) size).1 = true := by
  have hfacts := region_sector_facts offset size h0 h1 h2
  rw [erase_valid s offset size true _ _ h0 h1 h2 rfl rfl, if_pos rfl]
  unfold STM32F4FlashAbstractionLayer.verify_flash_erased
  rw [if_pos]
  rw [verifyLoop_eq_true_iff]
  intro j hj
  unfold FLASH_TOTAL_SIZE_BYTES at h2
  unfold LITTLE_FS_STARTIN_ADDRESS at *
  rw [Nat.mod_eq_of_lt (by unfold UINT32_MOD; omega)]
  show eraseSectors s.mem _ _ _ = 0xFF
  rw [eraseSectors_spec s.mem _ _ hfacts.1 _, if_pos (by omega)]

/-- C2 witness: erase one byte at offset 0, then verify that byte. -/
theorem c2_erase_then_verify_witness :
    (STM32F4FlashAbstractionLayer.verify_flash_erased
      (STM32F4FlashAbstractionLayer.erase ⟨fun _ => 0, 0, 0, 0⟩ 0 1 true).2.2
      (LITTLE_FS_STARTIN_ADDRESS + (0 : Int).toNat) 1).1 = true :=
  c2_erase_then_verify ⟨fun _ => 0, 0, 0, 0⟩ 0 1 (by decide) (by decide)
    (by norm_num [FLASH_TOTAL_SIZE_BYTES])

/-- C9 counterexample: the `verify_flash_erased` variant in `main.cpp`, on a
byte holding 0 instead of `0xFF`, returns `false` without incrementing the
hardware-error counter, against the claimed increment by exactly one. -/
theorem c9_counterexample :
    (MainCpp.verify_flash_erased ⟨fun _ => 0, 0, 0, 0⟩
      LITTLE_FS_STARTIN_ADDRESS 1).1 = false ∧
    (MainCpp.verify_flash_erased ⟨fun _ => 0, 0, 0, 0⟩
      LITTLE_FS_STARTIN_ADDRESS 1).2.ef_err_port_cnt = 0 := by
  exact ⟨rfl, rfl⟩

/-- C9 (amended): `verify_flash_erased(address, size)` returns `true` iff
every byte in `[address, address + size)` equals the erased value `0xFF`.
When some byte differs, the abstraction-layer variant returns `false` and
increments the hardware-error counter by exactly one, while the `main.cpp`
variant returns the same `false` but leaves the state (and hence every
counter) unchanged. -/
theorem c9_verify_erased (s : FlashState) (addr size : Nat)
    (hw : addr + size ≤ UINT32_MOD) :
    ((STM32F4FlashAbstractionLayer.verify_flash_erased s addr size).1 = true ↔
      ∀ a, addr ≤ a → a < addr + size → s.mem a = 0xFF) ∧
    ((STM32F4FlashAbstractionLayer.verify_flash_erased s addr size).1 = false →
      (STM32F4FlashAbstractionLayer.verify_flash_erased s addr size).2.ef_err_port_cnt
        = s.ef_err_port_cnt + 1) ∧
    ((STM32F4FlashAbstractionLayer.verify_flash_erased s addr size).1 = true →
      (STM32F4FlashAbstractionLayer.verify_flash_erased s addr size).2 = s) ∧
    (MainCpp.verify_flash_erased s addr size).1
      = (STM32F4FlashAbstractionLayer.verify_flash_erased s addr size).1 ∧
    (MainCpp.verify_flash_erased s addr size).2 = s := by
  have hiff : verifyLoop s.mem addr 0 size = true ↔
      ∀ a, addr ≤ a → a < addr + size → s.mem a = 0xFF := by
    rw [verifyLoop_eq_true_iff]
    unfold UINT32_MOD at *
    constructor
    · intro h a ha1 ha2
      have h3 := h (a - addr) (by omega)
      have hq : addr + 0 + (a - addr) = a := by omega
      rw [hq, Nat.mod_eq_of_lt (by omega)] at h3
      exact h3
    · intro h j hj
      rw [Nat.mod_eq_of_lt (by omega)]
      exact h (addr + 0 + j) (by omega) (by omega)
  unfold STM32F4FlashAbstractionLayer.verify_flash_erased MainCpp.verify_flash_erased
  by_cases h : verifyLoop s.mem addr 0 size = true
  · rw [if_pos h]
    exact ⟨iff_of_true rfl (hiff.mp h), by simp, fun _ => rfl, by simpa using h, rfl⟩
  · rw [if_neg h]
    refine ⟨iff_of_false (by simp) (fun hp => h (hiff.mpr hp)), fun _ => rfl,
      by simp, by simpa using h, rfl⟩

/-- C9 amended-claim witness: verifying one non-erased byte through the
abstraction layer bumps the hardware-error counter from 0 to 1. -/
theorem c9_verify_erased_witness :
    (STM32F4FlashAbstractionLayer.verify_flash_erased ⟨fun _ => 0, 0, 0, 0⟩ 0 1).2.ef_err_port_cnt
      = 0 + 1 :=
  (c9_verify_erased ⟨fun _ => 0, 0, 0, 0⟩ 0 1 (by decide)).2.1 (by decide)

/-- Bytes whose address is never programmed by the loop keep their value. -/
theorem writeLoop_frame (buf : Nat → Nat) (halOk : Nat → Bool) (addr : Int) :
    ∀ (n : Nat) (mem : Nat → Nat) (i x : Nat),
      (∀ j : Nat, i ≤ j → j < i + n → x ≠ toUInt32 (addr + (j : Int))) →
      (writeLoop buf halOk addr mem i n).1 x = mem x := by
  intro n
  induction n with
  | zero => intro mem i x _; rfl
  | succ n ih =>
    intro mem i x hx
    simp only [writeLoop]
    split_ifs with h1 h2
    · exact (ih _ _ _ (fun j hj1 hj2 => hx j (by omega) (by omega))).trans
        (by simp only [progByte]; rw [if_neg (hx i (by omega) (by omega))])
    · show progByte mem (toUInt32 (addr + (i : Int))) (buf i) x = mem x
      simp only [progByte]
      rw [if_neg (hx i (by omega) (by omega))]
    · rfl

/-- When the loop completes, every programmed byte verified equal to its
source byte, so (under distinctness of the byte addresses) the final memory
holds the source bytes. -/
theorem writeLoop_ok_values (buf : Nat → Nat) (halOk : Nat → Bool) (addr : Int) :
    ∀ (n : Nat) (mem : Nat → Nat) (i : Nat),
      (writeLoop buf halOk addr mem i n).2 = true →
      (∀ a b : Nat, i ≤ a → a < i + n → i ≤ b → b < i + n →
        toUInt32 (addr + (a : Int)) = toUInt32 (addr + (b : Int)) → a = b) →
      ∀ j : Nat, i ≤ j → j < i + n →
        (writeLoop buf halOk addr mem i n).1 (toUInt32 (addr + (j : Int))) = buf j := by
  intro n
  induction n with
  | zero => intro mem i _ _ j hj1 hj2; omega
  | succ n ih =>
    intro mem i hok hinj j hj1 hj2
    simp only [writeLoop] at hok ⊢
    by_cases h1 : halOk i = true
    · rw [if_pos h1] at hok ⊢
      by_cases h2 : progByte mem (toUInt32 (addr + (i : Int))) (buf i)
          (toUInt32 (addr + (i : Int))) = buf i
      · rw [if_pos h2] at hok ⊢
        rcases Nat.lt_or_ge i j with hij | hij
        · exact ih _ (i + 1) hok
            (fun a b ha1 ha2 hb1 hb2 => hinj a b (by omega) (by omega) (by omega) (by omega))
            j (by omega) (by omega)
        · have hji : j = i := by omega
          rw [hji]
          rw [writeLoop_frame buf halOk addr n _ (i + 1) _ (fun k hk1 hk2 heq => by
            have := hinj i k (by omega) (by omega) (by omega) (by omega) heq
            omega)]
          exact h2
      · rw [if_neg h2] at hok
        exact absurd hok (by simp)
    · rw [if_neg h1] at hok
      exact absurd hok (by simp)

/-- First-failure characterisation of the program/verify loop: if all chunks
before `j` program and verify cleanly, and chunk `j` is reported programmed
but cannot verify (its NOR-programmed value differs from the source byte),
the loop stops with `false`; chunks up to and including `j` hold their
programmed values and every other byte is untouched. -/
theorem writeLoop_fail_at (buf : Nat → Nat) (halOk : Nat → Bool) (addr : Int) :
    ∀ (n : Nat) (mem : Nat → Nat) (i j : Nat), i ≤ j → j < i + n →
      (∀ a b : Nat, i ≤ a → a < i + n → i ≤ b → b < i + n →
        toUInt32 (addr + (a : Int)) = toUInt32 (addr + (b : Int)) → a = b) →
      (∀ k : Nat, i ≤ k → k < j → halOk k = true ∧
        mem (toUInt32 (addr + (k : Int))) &&& buf k = buf k) →
      halOk j = true →
      mem (toUInt32 (addr + (j : Int))) &&& buf j ≠ buf j →
      (writeLoop buf halOk addr mem i n).2 = false ∧
      (∀ k : Nat, i ≤ k → k ≤ j →
        (writeLoop buf halOk addr mem i n).1 (toUInt32 (addr + (k : Int)))
          = mem (toUInt32 (addr + (k : Int))) &&& buf k) ∧
      (∀ x : Nat, (∀ k : Nat, i ≤ k → k ≤ j → x ≠ toUInt32 (addr + (k : Int))) →
        (writeLoop buf halOk addr mem i n).1 x = mem x) := by
  intro n
  induction n with
  | zero => intro mem i j hj1 hj2; omega
  | succ n ih =>
    intro mem i j hj1 hj2 hinj hpre hhal hfail
    simp only [writeLoop]
    rcases Nat.eq_or_lt_of_le hj1 with rfl | hij
    · rw [if_pos hhal]
      have hcond : ¬ (progByte mem (toUInt32 (addr + (i : Int))) (buf i)
          (toUInt32 (addr + (i : Int))) = buf i) := by
        simpa [progByte] using hfail
      rw [if_neg hcond]
      refine ⟨rfl, fun k hk1 hk2 => ?_, fun x hx => ?_⟩
      · have hki : k = i := by omega
        subst hki
        simp [progByte]
      · show progByte mem (toUInt32 (addr + (i : Int))) (buf i) x = mem x
        simp only [progByte]
        rw [if_neg (hx i (by omega) (by omega))]
    · rw [if_pos (hpre i (by omega) (by omega)).1]
      have hv : progByte mem (toUInt32 (addr + (i : Int))) (buf i)
          (toUInt32 (addr + (i : Int))) = buf i := by
        simpa [progByte] using (hpre i (by omega) (by omega)).2
      rw [if_pos hv]
      have hm1 : ∀ k, i + 1 ≤ k → k ≤ j →
          progByte mem (toUInt32 (addr + (i : Int))) (buf i)
            (toUInt32 (addr + (k : Int))) = mem (toUInt32 (addr + (k : Int))) := by
        intro k hk1 hk2
        simp only [progByte]
        rw [if_neg (fun heq => by
          have := hinj k i (by omega) (by omega) (by omega) (by omega) heq
          omega)]
      have hih := ih (progByte mem (toUInt32 (addr + (i : Int))) (buf i)) (i + 1) j
        (by omega) (by omega)
        (fun a b ha1 ha2 hb1 hb2 => hinj a b (by omega) (by omega) (by omega) (by omega))
        (fun k hk1 hk2 => ⟨(hpre k (by omega) (by omega)).1, by
          rw [hm1 k (by omega) (by omega)]
          exact (hpre k (by omega) (by omega)).2⟩)
        hhal
        (by rw [hm1 j (by omega) (by omega)]; exact hfail)
      refine ⟨hih.1, fun k hk1 hk2 => ?_, fun x hx => ?_⟩
      · rcases Nat.eq_or_lt_of_le hk1 with rfl | hik
        · rw [hih.2.2 _ (fun p hp1 hp2 heq => by
            have := hinj i p (by omega) (by omega) (by omega) (by omega) heq
            omega)]
          simp [progByte]
        · rw [hih.2.1 k (by omega) hk2, hm1 k (by omega) hk2]
      · rw [hih.2.2 x (fun k hk1 hk2 => hx k (by omega) hk2)]
        simp only [progByte]
        rw [if_neg (hx i (by omega) (by omega))]

/-- Within a valid request, the `uint32_t` reduction of the byte address
`region.start + offset + j` is plain arithmetic. -/
theorem region_addr (offset : Int) (h0 : 0 ≤ offset) (j : Nat)
    (hj : offset.toNat + j ≤ 262144) :
    toUInt32 ((LITTLE_FS_STARTIN_ADDRESS : Int) + offset + (j : Int)) =
      LITTLE_FS_STARTIN_ADDRESS + offset.toNat + j := by
  unfold LITTLE_FS_STARTIN_ADDRESS
  rw [toUInt32_eq_toNat (by omega) (by omega)]
  omega

/-- A valid `write` call passes the range validation and reduces to the
program/verify loop. -/
theorem write_valid (s : FlashState) (offset : Int) (buf : Nat → Nat)
    (size : Nat) (halOk : Nat → Bool)
    (h0 : 0 ≤ offset) (h1 : 0 < size)
    (h2 : offset + (size : Int) ≤ (FLASH_TOTAL_SIZE_BYTES : Int)) :
    STM32F4FlashAbstractionLayer.write s offset buf size halOk =
      match writeLoop buf halOk ((LITTLE_FS_STARTIN_ADDRESS : Int) + offset) s.mem 0 size with
      | (mem1, true) =>
        (toInt32 size, { s with mem := mem1, on_ic_write_cnt := s.on_ic_write_cnt + 1 })
      | (mem1, false) =>
        (-1, { s with mem := mem1, ef_err_port_cnt := s.ef_err_port_cnt + 1 }) := by
  unfold FLASH_TOTAL_SIZE_BYTES at h2
  have e1 : toUInt32 offset = offset.toNat := toUInt32_eq_toNat h0 (by omega)
  have e2 : toUInt32 (offset + (size : Int)) = offset.toNat + size := by
    rw [toUInt32_eq_toNat (by omega) (by omega)]; omega
  have hval : ¬ (offset < 0 ∨ toUInt32 offset ≥ FLASH_TOTAL_SIZE_BYTES ∨ size = 0 ∨
      toUInt32 (offset + (size : Int)) > FLASH_TOTAL_SIZE_BYTES) := by
    rw [e1, e2]
    unfold FLASH_TOTAL_SIZE_BYTES
    omega
  simp only [STM32F4FlashAbstractionLayer.write]
  rw [if_neg hval]

/-- A valid `read` call (with a non-null buffer) passes both validations and
reduces to the plain memory copy. -/
theorem read_valid (s : FlashState) (offset : Int) (size : Nat)
    (h0 : 0 ≤ offset) (h1 : 0 < size)
    (h2 : offset + (size : Int) ≤ (FLASH_TOTAL_SIZE_BYTES : Int)) :
    STM32F4FlashAbstractionLayer.read s offset true size =
      (toInt32 size, readBytes s.mem ((LITTLE_FS_STARTIN_ADDRESS : Int) + offset) size,
        { s with on_ic_read_cnt := s.on_ic_read_cnt + 1 }) := by
  unfold FLASH_TOTAL_SIZE_BYTES at h2
  have e1 : toUInt32 offset = offset.toNat := toUInt32_eq_toNat h0 (by omega)
  have e2 : toUInt32 (offset + (size : Int)) = offset.toNat + size := by
    rw [toUInt32_eq_toNat (by omega) (by omega)]; omega
  have hv1 : ¬ ((true : Bool) = false ∨ size = 0) := by
    rintro (h | h)
    · simp at h
    · omega
  have hv2 : ¬ (offset < 0 ∨ toUInt32 offset ≥ FLASH_TOTAL_SIZE_BYTES ∨
      toUInt32 (offset + (size : Int)) > FLASH_TOTAL_SIZE_BYTES) := by
    rw [e1, e2]
    unfold FLASH_TOTAL_SIZE_BYTES
    omega
  simp only [STM32F4FlashAbstractionLayer.read]
  rw [if_neg hv1, if_neg hv2]

/-- C1: for every valid `(offset, buf, size)` with `size` a multiple of
`prog_size` (here 1) and `offset + size ≤ region.size`, if the target range
holds the erased value `0xFF` beforehand, then `write(offset, buf, size)`
returning `size` followed by `read(offset, out, size)` yields `out`
byte-for-byte equal to `buf`. -/
theorem c1_write_read_roundtrip (s : FlashState) (offset : Int)
    (buf : Nat → Nat) (size : Nat) (halOk : Nat → Bool)
    (h0 : 0 ≤ offset) (hp : size % 1 = 0) (h1 : 0 < size)
    (h2 : offset + (size : Int) ≤ (FLASH_TOTAL_SIZE_BYTES : Int))
    (herased : ∀ j : Nat, j < size →
      s.mem (LITTLE_FS_STARTIN_ADDRESS + offset.toNat + j) = 0xFF)
    (hret : (STM32F4FlashAbstractionLayer.write s offset buf size halOk).1 = (size : Int)) :
    (STM32F4FlashAbstractionLayer.read
        (STM32F4FlashAbstractionLayer.write s offset buf size halOk).2
        offset true size).1 = (size : Int) ∧
    (STM32F4FlashAbstractionLayer.read
        (STM32F4FlashAbstractionLayer.write s offset buf size halOk).2
        offset true size).2.1 = (List.range size).map buf := by
  have hweq := write_valid s offset buf size halOk h0 h1 h2
  rcases hL : writeLoop buf halOk ((LITTLE_FS_STARTIN_ADDRESS : Int) + offset) s.mem 0 size
    with ⟨mem1, ok⟩
  cases ok with
  | false =>
    rw [hweq, hL] at hret
    exfalso
    simp at hret
  | true =>
    have hpost : (STM32F4FlashAbstractionLayer.write s offset buf size halOk).2 =
        { s with mem := mem1, on_ic_write_cnt := s.on_ic_write_cnt + 1 } := by
      rw [hweq, hL]
    rw [hpost, read_valid _ offset size h0 h1 h2]
    unfold FLASH_TOTAL_SIZE_BYTES at h2
    refine ⟨toInt32_eq_self (by omega), ?_⟩
    show readBytes mem1 ((LITTLE_FS_STARTIN_ADDRESS : Int) + offset) size
      = (List.range size).map buf
    unfold readBytes
    apply List.map_congr_left
    intro a ha
    have haz : a < size := List.mem_range.mp ha
    have hvals := writeLoop_ok_values buf halOk ((LITTLE_FS_STARTIN_ADDRESS : Int) + offset)
      size s.mem 0 (by rw [hL])
      (fun a b ha1 ha2 hb1 hb2 heq => by
        rw [region_addr offset h0 a (by omega), region_addr offset h0 b (by omega)] at heq
        omega)
      a (by omega) (by omega)
    rw [hL] at hvals
    simpa using hvals

/-- C1 witness: over erased flash, writing the byte `0xAB` at offset 0 and
reading it back returns it unchanged. -/
theorem c1_write_read_roundtrip_witness :
    (STM32F4FlashAbstractionLayer.read
        (STM32F4FlashAbstractionLayer.write ⟨fun _ => 0xFF, 0, 0, 0⟩ 0
          (fun _ => 0xAB) 1 (fun _ => true)).2 0 true 1).2.1
      = (List.range 1).map (fun _ => 0xAB) :=
  (c1_write_read_roundtrip ⟨fun _ => 0xFF, 0, 0, 0⟩ 0 (fun _ => 0xAB) 1 (fun _ => true)
    (by decide) (by decide) (by decide) (by norm_num [FLASH_TOTAL_SIZE_BYTES])
    (fun j hj => rfl) (by decide)).2

/-- A `write` whose range guard evaluates false reduces to the loop. -/
theorem write_unfold (s : FlashState) (offset : Int) (buf : Nat → Nat)
    (size : Nat) (halOk : Nat → Bool)
    (hv : ¬ (offset < 0 ∨ toUInt32 offset ≥ FLASH_TOTAL_SIZE_BYTES ∨ size = 0 ∨
      toUInt32 (offset + (size : Int)) > FLASH_TOTAL_SIZE_BYTES)) :
    STM32F4FlashAbstractionLayer.write s offset buf size halOk =
      match writeLoop buf halOk ((LITTLE_FS_STARTIN_ADDRESS : Int) + offset) s.mem 0 size with
      | (mem1, true) =>
        (toInt32 size, { s with mem := mem1, on_ic_write_cnt := s.on_ic_write_cnt + 1 })
      | (mem1, false) =>
        (-1, { s with mem := mem1, ef_err_port_cnt := s.ef_err_port_cnt + 1 }) := by
  simp only [STM32F4FlashAbstractionLayer.write]
  rw [if_neg hv]

/-- A `read` whose two guards evaluate false reduces to the memory copy. -/
theorem read_unfold (s : FlashState) (offset : Int) (size : Nat)
    (hv1 : ¬ ((true : Bool) = false ∨ size = 0))
    (hv2 : ¬ (offset < 0 ∨ toUInt32 offset ≥ FLASH_TOTAL_SIZE_BYTES ∨
      toUInt32 (offset + (size : Int)) > FLASH_TOTAL_SIZE_BYTES)) :
    STM32F4FlashAbstractionLayer.read s offset true size =
      (toInt32 size, readBytes s.mem ((LITTLE_FS_STARTIN_ADDRESS : Int) + offset) size,
        { s with on_ic_read_cnt := s.on_ic_read_cnt + 1 }) := by
  simp only [STM32F4FlashAbstractionLayer.read]
  rw [if_neg hv1, if_neg hv2]

/-- C6: in a valid write call whose chunks before `j` program and verify
cleanly while chunk `j` — reported successfully programmed by the hardware —
fails the immediate byte-for-byte read-back comparison, the call aborts at
once with the verify-failure error `-1` and bumps the hardware-error counter:
chunks before `j` remain committed with their source values (no rollback),
chunk `j` holds its NOR-programmed value, and no byte after chunk `j` is
programmed. -/
theorem c6_write_verify_abort (s : FlashState) (offset : Int)
    (buf : Nat → Nat) (size : Nat) (halOk : Nat → Bool) (j : Nat)
    (h0 : 0 ≤ offset) (h1 : 0 < size)
    (h2 : offset + (size : Int) ≤ (FLASH_TOTAL_SIZE_BYTES : Int))
    (hj : j < size)
    (hpre : ∀ k : Nat, k < j → halOk k = true ∧
      s.mem (LITTLE_FS_STARTIN_ADDRESS + offset.toNat + k) &&& buf k = buf k)
    (hhal : halOk j = true)
    (hfail : s.mem (LITTLE_FS_STARTIN_ADDRESS + offset.toNat + j) &&& buf j ≠ buf j) :
    (STM32F4FlashAbstractionLayer.write s offset buf size halOk).1 = -1 ∧
    (STM32F4FlashAbstractionLayer.write s offset buf size halOk).2.ef_err_port_cnt
      = s.ef_err_port_cnt + 1 ∧
    (STM32F4FlashAbstractionLayer.write s offset buf size halOk).2.on_ic_write_cnt
      = s.on_ic_write_cnt ∧
    (∀ k : Nat, k < j →
      (STM32F4FlashAbstractionLayer.write s offset buf size halOk).2.mem
        (LITTLE_FS_STARTIN_ADDRESS + offset.toNat + k) = buf k) ∧
    (STM32F4FlashAbstractionLayer.write s offset buf size halOk).2.mem
        (LITTLE_FS_STARTIN_ADDRESS + offset.toNat + j)
      = s.mem (LITTLE_FS_STARTIN_ADDRESS + offset.toNat + j) &&& buf j ∧
    (∀ k : Nat, j < k →
      (STM32F4FlashAbstractionLayer.write s offset buf size halOk).2.mem
        (LITTLE_FS_STARTIN_ADDRESS + offset.toNat + k)
      = s.mem (LITTLE_FS_STARTIN_ADDRESS + offset.toNat + k)) := by
  have h2' : offset + (size : Int) ≤ 262144 := by
    have h := h2
    unfold FLASH_TOTAL_SIZE_BYTES at h
    exact_mod_cast h
  have hinj : ∀ a b : Nat, 0 ≤ a → a < 0 + size → 0 ≤ b → b < 0 + size →
      toUInt32 ((LITTLE_FS_STARTIN_ADDRESS : Int) + offset + (a : Int)) =
        toUInt32 ((LITTLE_FS_STARTIN_ADDRESS : Int) + offset + (b : Int)) → a = b := by
    intro a b _ ha _ hb heq
    rw [region_addr offset h0 a (by omega), region_addr offset h0 b (by omega)] at heq
    omega
  have hfl := writeLoop_fail_at buf halOk ((LITTLE_FS_STARTIN_ADDRESS : Int) + offset)
    size s.mem 0 j (by omega) (by omega) hinj
    (fun k _ hk => by
      rw [region_addr offset h0 k (by omega)]
      exact hpre k hk)
    hhal
    (by rw [region_addr offset h0 j (by omega)]; exact hfail)
  rcases hL : writeLoop buf halOk ((LITTLE_FS_STARTIN_ADDRESS : Int) + offset) s.mem 0 size
    with ⟨mem1, ok⟩
  rw [hL] at hfl
  cases ok with
  | true => exact absurd hfl.1 (by simp)
  | false =>
    rw [write_valid s offset buf size halOk h0 h1 h2, hL]
    refine ⟨rfl, rfl, rfl, fun k hk => ?_, ?_, fun k hk => ?_⟩
    · show mem1 (LITTLE_FS_STARTIN_ADDRESS + offset.toNat + k) = buf k
      have hv := hfl.2.1 k (by omega) (by omega)
      rw [region_addr offset h0 k (by omega)] at hv
      simp only [] at hv
      rw [hv]
      exact (hpre k hk).2
    · show mem1 (LITTLE_FS_STARTIN_ADDRESS + offset.toNat + j)
        = s.mem (LITTLE_FS_STARTIN_ADDRESS + offset.toNat + j) &&& buf j
      have hv := hfl.2.1 j (by omega) (by omega)
      rw [region_addr offset h0 j (by omega)] at hv
      simpa using hv
    · show mem1 (LITTLE_FS_STARTIN_ADDRESS + offset.toNat + k)
        = s.mem (LITTLE_FS_STARTIN_ADDRESS + offset.toNat + k)
      have hv := hfl.2.2 (LITTLE_FS_STARTIN_ADDRESS + offset.toNat + k) (fun p hp1 hp2 => by
        rw [region_addr offset h0 p (by omega)]
        omega)
      simpa using hv

/-- C6 witness: writing `0x0F` over a byte already programmed to `0xF0`
fails verification at chunk 0 and leaves the byte NOR-programmed to `0x00`. -/
theorem c6_write_verify_abort_witness :
    (STM32F4FlashAbstractionLayer.write ⟨fun _ => 0xF0, 0, 0, 0⟩ 0
      (fun _ => 0x0F) 1 (fun _ => true)).1 = -1 ∧
    (STM32F4FlashAbstractionLayer.write ⟨fun _ => 0xF0, 0, 0, 0⟩ 0
      (fun _ => 0x0F) 1 (fun _ => true)).2.ef_err_port_cnt = 0 + 1 := by
  have h := c6_write_verify_abort ⟨fun _ => 0xF0, 0, 0, 0⟩ 0 (fun _ => 0x0F) 1
    (fun _ => true) 0 (by decide) (by decide) (by norm_num [FLASH_TOTAL_SIZE_BYTES])
    (by decide) (fun k hk => absurd hk (by omega)) (by decide) (by decide)
  exact ⟨h.1, h.2.1⟩

/-- C8: a write whose validation passes and whose program/verify loop
completes bumps `on_ic_write_cnt` by exactly one — however many chunks were
programmed — leaving the other counters alone; a write whose loop stops
(hardware program failure or verify mismatch) bumps the hardware-error
counter instead and leaves the operation counters alone; a read whose
validations pass bumps `on_ic_read_cnt` by exactly one, leaving the other
counters alone. -/
theorem c8_operation_counters (s : FlashState) (offset : Int)
    (buf : Nat → Nat) (size : Nat) (halOk : Nat → Bool) :
    (¬ (offset < 0 ∨ toUInt32 offset ≥ FLASH_TOTAL_SIZE_BYTES ∨ size = 0 ∨
        toUInt32 (offset + (size : Int)) > FLASH_TOTAL_SIZE_BYTES) →
      ((writeLoop buf halOk ((LITTLE_FS_STARTIN_ADDRESS : Int) + offset) s.mem 0 size).2
          = true →
        (STM32F4FlashAbstractionLayer.write s offset buf size halOk).2.on_ic_write_cnt
          = s.on_ic_write_cnt + 1 ∧
        (STM32F4FlashAbstractionLayer.write s offset buf size halOk).2.ef_err_port_cnt
          = s.ef_err_port_cnt ∧
        (STM32F4FlashAbstractionLayer.write s offset buf size halOk).2.on_ic_read_cnt
          = s.on_ic_read_cnt) ∧
      ((writeLoop buf halOk ((LITTLE_FS_STARTIN_ADDRESS : Int) + offset) s.mem 0 size).2
          = false →
        (STM32F4FlashAbstractionLayer.write s offset buf size halOk).2.ef_err_port_cnt
          = s.ef_err_port_cnt + 1 ∧
        (STM32F4FlashAbstractionLayer.write s offset buf size halOk).2.on_ic_write_cnt
          = s.on_ic_write_cnt ∧
        (STM32F4FlashAbstractionLayer.write s offset buf size halOk).2.on_ic_read_cnt
          = s.on_ic_read_cnt)) ∧
    (¬ ((true : Bool) = false ∨ size = 0) →
      ¬ (offset < 0 ∨ toUInt32 offset ≥ FLASH_TOTAL_SIZE_BYTES ∨
        toUInt32 (offset + (size : Int)) > FLASH_TOTAL_SIZE_BYTES) →
      (STM32F4FlashAbstractionLayer.read s offset true size).2.2.on_ic_read_cnt
        = s.on_ic_read_cnt + 1 ∧
      (STM32F4FlashAbstractionLayer.read s offset true size).2.2.ef_err_port_cnt
        = s.ef_err_port_cnt ∧
      (STM32F4FlashAbstractionLayer.read s offset true size).2.2.on_ic_write_cnt
        = s.on_ic_write_cnt) := by
  constructor
  · intro hv
    rcases hL : writeLoop buf halOk ((LITTLE_FS_STARTIN_ADDRESS : Int) + offset) s.mem 0 size
      with ⟨mem1, ok⟩
    rw [write_unfold s offset buf size halOk hv, hL]
    cases ok with
    | true => exact ⟨fun _ => ⟨rfl, rfl, rfl⟩, fun h => absurd h (by simp)⟩
    | false => exact ⟨fun h => absurd h (by simp), fun _ => ⟨rfl, rfl, rfl⟩⟩
  · intro hv1 hv2
    rw [read_unfold s offset size hv1 hv2]
    exact ⟨rfl, rfl, rfl⟩

/-- C8 witness: one successful one-byte write and one successful one-byte
read each bump their operation counter from 0 to 1. -/
theorem c8_operation_counters_witness :
    (STM32F4FlashAbstractionLayer.write ⟨fun _ => 0xFF, 0, 0, 0⟩ 0
      (fun _ => 0) 1 (fun _ => true)).2.on_ic_write_cnt = 0 + 1 ∧
    (STM32F4FlashAbstractionLayer.read ⟨fun _ => 0xFF, 0, 0, 0⟩ 0 true 1).2.2.on_ic_read_cnt
      = 0 + 1 := by
  refine ⟨(((c8_operation_counters ⟨fun _ => 0xFF, 0, 0, 0⟩ 0 (fun _ => 0) 1
      (fun _ => true)).1 (by decide)).1 (by decide)).1,
    ((c8_operation_counters ⟨fun _ => 0xFF, 0, 0, 0⟩ 0 (fun _ => 0) 1
      (fun _ => true)).2 (by decide) (by decide)).1⟩

/-- C3 (code bug): the range validations compare `offset + size` only after
reduction mod 2^32, so the out-of-range request `offset = 1`,
`size = 2^32 - 1` (whose true sum 2^32 exceeds the 256 KiB region but wraps
to 0) passes validation and the device is programmed: the byte at
`region.start + 1` changes from `0xF0` to `0x00` (its NOR-programmed value)
before the verify mismatch aborts the call — the claim instead requires such
a call to fail without touching the flash. -/
theorem c3_validation_overflow :
    ((1 : Int) + ((4294967295 : Nat) : Int) > (FLASH_TOTAL_SIZE_BYTES : Int)) ∧
    (STM32F4FlashAbstractionLayer.write ⟨fun _ => 0xF0, 0, 0, 0⟩ 1
      (fun _ => 0x0F) 4294967295 (fun _ => true)).1 = -1 ∧
    (STM32F4FlashAbstractionLayer.write ⟨fun _ => 0xF0, 0, 0, 0⟩ 1
      (fun _ => 0x0F) 4294967295 (fun _ => true)).2.mem
        (LITTLE_FS_STARTIN_ADDRESS + 1) = 0 ∧
    (⟨fun _ => 0xF0, 0, 0, 0⟩ : FlashState).mem (LITTLE_FS_STARTIN_ADDRESS + 1)
      = 0xF0 := by
  exact ⟨by norm_num [FLASH_TOTAL_SIZE_BYTES], by decide, by decide, rfl⟩

/-- `toUInt32` of a cast natural is reduction mod 2^32. -/
theorem toUInt32_natCast (n : Nat) : toUInt32 (n : Int) = n % UINT32_MOD := by
  unfold toUInt32 UINT32_MOD
  omega

/-- Round trip through the signed reinterpretation. -/
theorem toUInt32_toInt32 (n : Nat) : toUInt32 (toInt32 n) = n % UINT32_MOD := by
  unfold toInt32 toUInt32 UINT32_MOD
  split_ifs <;> omega

/-- The adapter status collapse `(result == size) ? 0 : -1` is zero exactly
when the comparison holds. -/
theorem ite_status (c : Prop) [Decidable c] :
    ((if c then (0 : Int) else (-1)) = 0) ↔ c := by
  split_ifs with h
  · exact iff_of_true rfl h
  · exact iff_of_false (by norm_num) h

/-- C7 counterexample: for requested size 2^31 the engine returns the
negative `int` `-2^31`, which is not the requested byte count, yet the read
adapter — comparing at the unsigned type `lfs_size_t` — reports success 0. -/
theorem c7_counterexample :
    (LfsAdapter.read ⟨fun _ => 0xFF, 0, 0, 0⟩ 0 0 2147483648).1 = 0 ∧
    (MainCpp.read ⟨fun _ => 0xFF, 0, 0, 0⟩
      (toInt32 ((0 * LFS_BLOCK_SIZE + 0) % UINT32_MOD)) 2147483648).1 = -2147483648 ∧
    ((-2147483648 : Int) ≠ (2147483648 : Int)) := by
  exact ⟨by decide, by decide, by decide⟩

/-- C7 (amended): each Block Device Adapter operation computes
`absolute_offset = block * block_size + intra_block_offset` (in `uint32_t`
arithmetic), delegates to the corresponding engine, passes the engine's
outputs and state through unchanged, and returns 0 exactly when the engine's
returned byte count, reinterpreted at the unsigned 32-bit type `lfs_size_t`
used by the comparison `result == size`, equals the requested size — for
requests below 2^31 (hence for every request LittleFS can make) this
coincides with exact equality of the returned byte count — and returns -1
for every other outcome, partial transfers included; `sync` takes no action
and always returns 0. -/
theorem c7_adapters (s : FlashState) (block off size : Nat)
    (buf : Nat → Nat) (halOk : Nat → Bool) (eraseOk : Bool) :
    LfsAdapter.sync s = (0, s) ∧
    ((LfsAdapter.read s block off size).1 = 0 ∨
      (LfsAdapter.read s block off size).1 = -1) ∧
    ((LfsAdapter.write s block off buf size halOk).1 = 0 ∨
      (LfsAdapter.write s block off buf size halOk).1 = -1) ∧
    ((LfsAdapter.erase s block eraseOk).1 = 0 ∨
      (LfsAdapter.erase s block eraseOk).1 = -1) ∧
    (LfsAdapter.read s block off size).2 =
      (MainCpp.read s (toInt32 ((block * LFS_BLOCK_SIZE + off) % UINT32_MOD)) size).2 ∧
    (LfsAdapter.write s block off buf size halOk).2 =
      (MainCpp.write s (toInt32 ((block * LFS_BLOCK_SIZE + off) % UINT32_MOD))
        buf size halOk).2 ∧
    (LfsAdapter.erase s block eraseOk).2 =
      (MainCpp.erase s (toInt32 ((block * LFS_BLOCK_SIZE) % UINT32_MOD))
        LFS_BLOCK_SIZE eraseOk).2 ∧
    ((LfsAdapter.read s block off size).1 = 0 ↔
      toUInt32 (MainCpp.read s (toInt32 ((block * LFS_BLOCK_SIZE + off) % UINT32_MOD))
        size).1 = size % UINT32_MOD) ∧
    ((LfsAdapter.write s block off buf size halOk).1 = 0 ↔
      toUInt32 (MainCpp.write s (toInt32 ((block * LFS_BLOCK_SIZE + off) % UINT32_MOD))
        buf size halOk).1 = size % UINT32_MOD) ∧
    ((LfsAdapter.erase s block eraseOk).1 = 0 ↔
      toUInt32 (MainCpp.erase s (toInt32 ((block * LFS_BLOCK_SIZE) % UINT32_MOD))
        LFS_BLOCK_SIZE eraseOk).1 = LFS_BLOCK_SIZE) ∧
    (size < 2147483648 →
      ((LfsAdapter.read s block off size).1 = 0 ↔
        (MainCpp.read s (toInt32 ((block * LFS_BLOCK_SIZE + off) % UINT32_MOD))
          size).1 = (size : Int))) ∧
    (size < 2147483648 →
      ((LfsAdapter.write s block off buf size halOk).1 = 0 ↔
        (MainCpp.write s (toInt32 ((block * LFS_BLOCK_SIZE + off) % UINT32_MOD))
          buf size halOk).1 = (size : Int))) ∧
    ((LfsAdapter.erase s block eraseOk).1 = 0 ↔
      (MainCpp.erase s (toInt32 ((block * LFS_BLOCK_SIZE) % UINT32_MOD))
        LFS_BLOCK_SIZE eraseOk).1 = (LFS_BLOCK_SIZE : Int)) := by
  have hr : (LfsAdapter.read s block off size).1 =
      (if toUInt32 (MainCpp.read s (toInt32 ((block * LFS_BLOCK_SIZE + off) % UINT32_MOD))
        size).1 = size % UINT32_MOD then (0 : Int) else -1) := rfl
  have hw : (LfsAdapter.write s block off buf size halOk).1 =
      (if toUInt32 (MainCpp.write s (toInt32 ((block * LFS_BLOCK_SIZE + off) % UINT32_MOD))
        buf size halOk).1 = size % UINT32_MOD then (0 : Int) else -1) := rfl
  have he : (LfsAdapter.erase s block eraseOk).1 =
      (if toUInt32 (MainCpp.erase s (toInt32 ((block * LFS_BLOCK_SIZE) % UINT32_MOD))
        LFS_BLOCK_SIZE eraseOk).1 = LFS_BLOCK_SIZE then (0 : Int) else -1) := rfl
  have hread1 : (MainCpp.read s (toInt32 ((block * LFS_BLOCK_SIZE + off) % UINT32_MOD))
      size).1 = toInt32 size := rfl
  have hwor : (MainCpp.write s (toInt32 ((block * LFS_BLOCK_SIZE + off) % UINT32_MOD))
        buf size halOk).1 = toInt32 size ∨
      (MainCpp.write s (toInt32 ((block * LFS_BLOCK_SIZE + off) % UINT32_MOD))
        buf size halOk).1 = -1 := by
    simp only [MainCpp.write]
    rcases writeLoop buf halOk
      ((LITTLE_FS_STARTIN_ADDRESS : Int) + toInt32 ((block * LFS_BLOCK_SIZE + off) % UINT32_MOD))
      s.mem 0 size with ⟨m1, ok⟩
    cases ok
    · exact Or.inr rfl
    · exact Or.inl rfl
  have heor : (MainCpp.erase s (toInt32 ((block * LFS_BLOCK_SIZE) % UINT32_MOD))
        LFS_BLOCK_SIZE eraseOk).1 = (LFS_BLOCK_SIZE : Int) ∨
      (MainCpp.erase s (toInt32 ((block * LFS_BLOCK_SIZE) % UINT32_MOD))
        LFS_BLOCK_SIZE eraseOk).1 = -1 := by
    cases eraseOk
    · exact Or.inr rfl
    · have h4096 : toInt32 LFS_BLOCK_SIZE = (LFS_BLOCK_SIZE : Int) := by decide
      exact Or.inl h4096
  refine ⟨rfl, ?_, ?_, ?_, rfl, rfl, rfl, ?_, ?_, ?_, ?_, ?_, ?_⟩
  · rw [hr]; split_ifs <;> simp
  · rw [hw]; split_ifs <;> simp
  · rw [he]; split_ifs <;> simp
  · rw [hr]; exact ite_status _
  · rw [hw]; exact ite_status _
  · rw [he]; exact ite_status _
  · intro hs
    rw [hr, ite_status, hread1, toUInt32_toInt32, toInt32_eq_self hs]
    simp
  · intro hs
    rw [hw, ite_status]
    rcases hwor with h | h
    · rw [h, toUInt32_toInt32, toInt32_eq_self hs]
      simp
    · rw [h]
      unfold toUInt32 UINT32_MOD
      omega
  · rw [he, ite_status]
    rcases heor with h | h
    · rw [h]
      decide
    · rw [h]
      decide

/-- C7 amended-claim witness: for the concrete 16-byte request at block 0 the
write adapter reports success exactly when the engine returned 16. -/
theorem c7_adapters_witness :
    ((LfsAdapter.write ⟨fun _ => 0xFF, 0, 0, 0⟩ 0 0 (fun _ => 0) 16 (fun _ => true)).1 = 0 ↔
      (MainCpp.write ⟨fun _ => 0xFF, 0, 0, 0⟩
        (toInt32 ((0 * LFS_BLOCK_SIZE + 0) % UINT32_MOD))
        (fun _ => 0) 16 (fun _ => true)).1 = (16 : Int)) := by
  have h := c7_adapters ⟨fun _ => 0xFF, 0, 0, 0⟩ 0 0 16 (fun _ => 0) (fun _ => true) true
  exact h.2.2.2.2.2.2.2.2.2.2.2.1 (by decide)
